import Mathlib

/-!
# Verification of the StockDSL portfolio / strategy script

A shallow embedding of `src/generated_strategy.py`.

Modelling conventions:
* Python numbers (prices, capital) are embedded as rationals `ℚ`; share
  quantities and position counts as integers `ℤ`.
* A Python `dict` keyed by strings is embedded as an association list in
  insertion order: updating an existing key rewrites its first occurrence in
  place, a fresh key is appended at the end, `del` removes the first
  occurrence.  This matches CPython dict semantics for the operations used.
* `Portfolio.buy` cannot raise, so it is a total function.
  `Portfolio.sell` can raise a `KeyError` (the read in
  `self.positions[symbol] -= quantity` when the key is absent), so it returns
  `Except String Portfolio`; the `.error` value marks the raising run.
* The f-string `{price:.2f}` is embedded by `fmt2`, rounding to hundredths
  (half away from zero at ties; Python rounds the underlying binary double
  half-to-even, which agrees with `fmt2` on every price exactly representable
  to two decimals — all prices appearing in the claims).
-/

/-- First-occurrence lookup in an insertion-ordered association list:
Python `d.get(k)` / `d[k]` read. -/
def lookupPos : List (String × ℤ) → String → Option ℤ
  | [], _ => none
  | (k, v) :: rest, s => if k = s then some v else lookupPos rest s

/-- Python `d.get(k, 0)`. -/
def getPos (m : List (String × ℤ)) (s : String) : ℤ :=
  (lookupPos m s).getD 0

/-- Python `d[k] = v`: rewrite the first occurrence in place, else append. -/
def setPos : List (String × ℤ) → String → ℤ → List (String × ℤ)
  | [], s, v => [(s, v)]
  | (k, w) :: rest, s, v =>
      if k = s then (k, v) :: rest else (k, w) :: setPos rest s v

/-- Python `del d[k]`: drop the first occurrence of the key. -/
def delPos : List (String × ℤ) → String → List (String × ℤ)
  | [], _ => []
  | (k, w) :: rest, s => if k = s then rest else (k, w) :: delPos rest s

/-- Two-digit zero-padded rendering of a residue in `[0, 100)`. -/
def pad2 (r : ℕ) : String :=
  if r < 10 then "0" ++ toString r else toString r

/-- The f-string `{q:.2f}` for a rational `q` (see the header note on
rounding).  `Rat.floor` is the integer floor of a rational. -/
def fmt2 (q : ℚ) : String :=
  let n : ℤ := Rat.floor (q * 100 + 1 / 2)
  let m : ℕ := n.natAbs
  (if n < 0 then "-" else "") ++ toString (m / 100) ++ "." ++ pad2 (m % 100)

/-- The string appended by `Portfolio.buy`:
`f"BOUGHT {quantity} {symbol} @ {price:.2f}"`. -/
def buyEntry (quantity : ℤ) (symbol : String) (price : ℚ) : String :=
  "BOUGHT " ++ toString quantity ++ " " ++ symbol ++ " @ " ++ fmt2 price

/-- The string appended by `Portfolio.sell`:
`f"SOLD   {quantity} {symbol} @ {price:.2f}"`. -/
def sellEntry (quantity : ℤ) (symbol : String) (price : ℚ) : String :=
  "SOLD   " ++ toString quantity ++ " " ++ symbol ++ " @ " ++ fmt2 price

/-- The `Portfolio` object: `capital`, `positions` dict, `history` list. -/
structure Portfolio where
  capital : ℚ
  positions : List (String × ℤ)
  history : List String
deriving DecidableEq, Repr

/-- `Portfolio.__init__(capital)`. -/
def portfolio (capital : ℚ) : Portfolio :=
  { capital := capital, positions := [], history := [] }

/-- `Portfolio.buy(symbol, price, quantity)` (source lines 11–18).  The
`else` branch only prints a diagnostic, so it is the identity. -/
def Portfolio.buy (p : Portfolio) (symbol : String) (price : ℚ)
    (quantity : ℤ) : Portfolio :=
  let cost := price * (quantity : ℚ)
  if p.capital ≥ cost then
    { capital := p.capital - cost
      positions := setPos p.positions symbol (getPos p.positions symbol + quantity)
      history := p.history ++ [buyEntry quantity symbol price] }
  else p

/-- `Portfolio.sell(symbol, price, quantity)` (source lines 20–28).  When the
guard `self.positions.get(symbol, 0) >= quantity` passes but the key is
absent, the statement `self.positions[symbol] -= quantity` raises `KeyError`:
embedded as the `.error` result.  The `else` branch only prints. -/
def Portfolio.sell (p : Portfolio) (symbol : String) (price : ℚ)
    (quantity : ℤ) : Except String Portfolio :=
  if getPos p.positions symbol ≥ quantity then
    match lookupPos p.positions symbol with
    | none => .error ("KeyError: " ++ symbol)
    | some c =>
        let capital := p.capital + price * (quantity : ℚ)
        let positions := setPos p.positions symbol (c - quantity)
        let history := p.history ++ [sellEntry quantity symbol price]
        if getPos positions symbol = 0 then
          .ok { capital := capital, positions := delPos positions symbol
                history := history }
        else
          .ok { capital := capital, positions := positions, history := history }
  else .ok p

/-- One call against the portfolio, as issued by a driver. -/
inductive Op where
  | buy (symbol : String) (price : ℚ) (quantity : ℤ)
  | sell (symbol : String) (price : ℚ) (quantity : ℤ)
deriving DecidableEq, Repr

/-- Run one call (`buy` never raises; `sell` may). -/
def applyOp (p : Portfolio) : Op → Except String Portfolio
  | .buy s pr q => .ok (p.buy s pr q)
  | .sell s pr q => p.sell s pr q

/-- Run a sequence of calls left to right, stopping at a raised exception. -/
def applyOps (p : Portfolio) : List Op → Except String Portfolio
  | [] => .ok p
  | op :: rest =>
    match applyOp p op with
    | .ok p₁ => applyOps p₁ rest
    | .error e => .error e

/-- The stated preconditions of `buy`/`sell`: price ≥ 0, quantity ≥ 1. -/
def validOp : Op → Prop
  | .buy _ pr q => 0 ≤ pr ∧ 1 ≤ q
  | .sell _ pr q => 0 ≤ pr ∧ 1 ≤ q

/-- The lines `print(trade)` of `Backtest.run` (source lines 59–63): the trade
history printed one entry per line, in list order. -/
def tradeHistoryLines (p : Portfolio) : List String :=
  if p.history = [] then ["No trades were executed."] else p.history

/-- One row of the per-symbol dataframe as read at loop index `i` in
`Nvda_amd_rotation.execute` (source lines 89–95): the close price and volume,
and the four indicator columns.  An indicator that is `NaN` during warm-up is
embedded as `none`; any comparison against `NaN` is false in Python, matched
by `optGt`/`optGt1` below. -/
structure Bar where
  price : ℚ
  volume : ℚ
  rsi : Option ℚ
  sma50 : Option ℚ
  sma200 : Option ℚ
  zscore : Option ℚ
deriving DecidableEq, Repr

/-- Python float `>` with `NaN` propagation: a comparison involving `NaN`
(`none`) is false. -/
def optGt : Option ℚ → Option ℚ → Bool
  | some a, some b => decide (b < a)
  | _, _ => false

/-- Python `x > 1` where `x` may be `NaN`. -/
def optGt1 : Option ℚ → Bool
  | some a => decide (1 < a)
  | none => false

/-- The condition of the first `if` (source line 97):
`(rsi > rsi and sma50 > sma200) or (zscore > 1)`. -/
def condLeg1 (rsi sma50 sma200 zscore : Option ℚ) : Bool :=
  (optGt rsi rsi && optGt sma50 sma200) || optGt1 zscore

/-- The condition of the second `if` (source line 100), textually identical to
the first. -/
def condLeg2 (rsi sma50 sma200 zscore : Option ℚ) : Bool :=
  (optGt rsi rsi && optGt sma50 sma200) || optGt1 zscore

/-- The body of the loop `for i in range(1, len(df))` in
`Nvda_amd_rotation.execute` (source lines 89–102), for one index `i`. -/
def stepBar (p : Portfolio) (b : Bar) : Except String Portfolio :=
  match
    (if condLeg1 b.rsi b.sma50 b.sma200 b.zscore then
      (p.buy "NVDA" b.price 1).sell "AMD" b.price 1
    else .ok p) with
  | .error e => .error e
  | .ok p₁ =>
    if condLeg2 b.rsi b.sma50 b.sma200 b.zscore then
      (p₁.buy "AMD" b.price 1).sell "NVDA" b.price 1
    else .ok p₁

/-! ## Association-list lemmas -/

theorem lookupPos_mem {m : List (String × ℤ)} {s : String} {v : ℤ}
    (h : lookupPos m s = some v) : (s, v) ∈ m := by
  induction m with
  | nil => simp [lookupPos] at h
  | cons kv rest ih =>
    obtain ⟨k, w⟩ := kv
    by_cases hk : k = s
    · subst hk
      simp [lookupPos] at h
      subst h
      exact List.mem_cons_self _ _
    · simp only [lookupPos, if_neg hk] at h
      exact List.mem_cons_of_mem _ (ih h)

theorem getPos_of_lookup {m : List (String × ℤ)} {s : String} {v : ℤ}
    (h : lookupPos m s = some v) : getPos m s = v := by
  simp [getPos, h]

theorem getPos_of_lookup_none {m : List (String × ℤ)} {s : String}
    (h : lookupPos m s = none) : getPos m s = 0 := by
  simp [getPos, h]

theorem lookupPos_setPos_self (m : List (String × ℤ)) (s : String) (v : ℤ) :
    lookupPos (setPos m s v) s = some v := by
  induction m with
  | nil => simp [setPos, lookupPos]
  | cons kv rest ih =>
    obtain ⟨k, w⟩ := kv
    by_cases hk : k = s
    · simp [setPos, lookupPos, hk]
    · simp [setPos, lookupPos, hk, ih]

theorem getPos_setPos_self (m : List (String × ℤ)) (s : String) (v : ℤ) :
    getPos (setPos m s v) s = v := by
  simp [getPos, lookupPos_setPos_self]

theorem setPos_setPos (m : List (String × ℤ)) (s : String) (v w : ℤ) :
    setPos (setPos m s v) s w = setPos m s w := by
  induction m with
  | nil => simp [setPos]
  | cons kv rest ih =>
    obtain ⟨k, u⟩ := kv
    by_cases hk : k = s
    · simp [setPos, hk]
    · simp [setPos, hk, ih]

theorem setPos_lookup_self {m : List (String × ℤ)} {s : String} {v : ℤ}
    (h : lookupPos m s = some v) : setPos m s v = m := by
  induction m with
  | nil => simp [lookupPos] at h
  | cons kv rest ih =>
    obtain ⟨k, w⟩ := kv
    by_cases hk : k = s
    · subst hk
      simp [lookupPos] at h
      simp [setPos, h]
    · simp only [lookupPos, if_neg hk] at h
      simp [setPos, hk, ih h]

theorem delPos_setPos_some {m : List (String × ℤ)} {s : String} {c : ℤ}
    (v : ℤ) (h : lookupPos m s = some c) :
    delPos (setPos m s v) s = delPos m s := by
  induction m with
  | nil => simp [lookupPos] at h
  | cons kv rest ih =>
    obtain ⟨k, w⟩ := kv
    by_cases hk : k = s
    · simp [setPos, delPos, hk]
    · simp only [lookupPos, if_neg hk] at h
      simp [setPos, delPos, hk, ih h]

theorem delPos_setPos_none {m : List (String × ℤ)} {s : String}
    (v : ℤ) (h : lookupPos m s = none) :
    delPos (setPos m s v) s = m := by
  induction m with
  | nil => simp [setPos, delPos]
  | cons kv rest ih =>
    obtain ⟨k, w⟩ := kv
    by_cases hk : k = s
    · subst hk; simp [lookupPos] at h
    · simp only [lookupPos, if_neg hk] at h
      simp [setPos, delPos, hk, ih h]

theorem mem_setPos {m : List (String × ℤ)} {s : String} {v : ℤ} {kv : String × ℤ}
    (h : kv ∈ setPos m s v) : kv ∈ m ∨ kv = (s, v) := by
  induction m with
  | nil =>
    simp [setPos] at h
    exact Or.inr h
  | cons kw rest ih =>
    obtain ⟨k, w⟩ := kw
    by_cases hk : k = s
    · simp only [setPos, if_pos hk] at h
      rcases List.mem_cons.mp h with h1 | h1
      · subst hk; exact Or.inr h1
      · exact Or.inl (List.mem_cons_of_mem _ h1)
    · simp only [setPos, if_neg hk] at h
      rcases List.mem_cons.mp h with h1 | h1
      · exact Or.inl (h1 ▸ List.mem_cons_self _ _)
      · rcases ih h1 with h2 | h2
        · exact Or.inl (List.mem_cons_of_mem _ h2)
        · exact Or.inr h2

theorem mem_delPos {m : List (String × ℤ)} {s : String} {kv : String × ℤ}
    (h : kv ∈ delPos m s) : kv ∈ m := by
  induction m with
  | nil => simp [delPos] at h
  | cons kw rest ih =>
    obtain ⟨k, w⟩ := kw
    by_cases hk : k = s
    · simp only [delPos, if_pos hk] at h
      exact List.mem_cons_of_mem _ h
    · simp only [delPos, if_neg hk] at h
      rcases List.mem_cons.mp h with h1 | h1
      · exact h1 ▸ List.mem_cons_self _ _
      · exact List.mem_cons_of_mem _ (ih h1)

/-- The positions invariant maintained by valid call sequences: every stored
count is at least 1 (no zero or negative entries). -/
def posWF (m : List (String × ℤ)) : Prop :=
  ∀ kv ∈ m, 1 ≤ kv.2

theorem getPos_nonneg {m : List (String × ℤ)} (h : posWF m) (s : String) :
    0 ≤ getPos m s := by
  rcases hl : lookupPos m s with _ | v
  · simp [getPos_of_lookup_none hl]
  · have := h _ (lookupPos_mem hl)
    simp only [getPos_of_lookup hl]
    omega

/-! ## Step lemmas for `buy` / `sell` -/

theorem buy_rejected {p : Portfolio} {s : String} {pr : ℚ} {q : ℤ}
    (h : p.capital < pr * (q : ℚ)) : p.buy s pr q = p := by
  simp only [Portfolio.buy, ge_iff_le]
  rw [if_neg (by linarith)]

theorem buy_accepted {p : Portfolio} {s : String} {pr : ℚ} {q : ℤ}
    (h : pr * (q : ℚ) ≤ p.capital) :
    p.buy s pr q =
      { capital := p.capital - pr * (q : ℚ)
        positions := setPos p.positions s (getPos p.positions s + q)
        history := p.history ++ [buyEntry q s pr] } := by
  simp only [Portfolio.buy, ge_iff_le]
  rw [if_pos h]

theorem sell_rejected {p : Portfolio} {s : String} {pr : ℚ} {q : ℤ}
    (h : getPos p.positions s < q) : p.sell s pr q = .ok p := by
  simp only [Portfolio.sell, ge_iff_le]
  rw [if_neg (by omega)]

theorem buy_capital_nonneg {p : Portfolio} (s : String) (pr : ℚ) (q : ℤ)
    (h : 0 ≤ p.capital) : 0 ≤ (p.buy s pr q).capital := by
  simp only [Portfolio.buy, ge_iff_le]
  split_ifs with hc
  · simp only
    linarith
  · exact h

theorem buy_posWF {p : Portfolio} (s : String) (pr : ℚ) {q : ℤ}
    (hq : 1 ≤ q) (h : posWF p.positions) : posWF (p.buy s pr q).positions := by
  simp only [Portfolio.buy, ge_iff_le]
  split_ifs with hc
  · intro kv hkv
    rcases mem_setPos hkv with h1 | h1
    · exact h _ h1
    · subst h1
      have := getPos_nonneg h s
      simpa using by omega
  · exact h

theorem sell_ok {p : Portfolio} {s : String} (pr : ℚ) {q : ℤ}
    (hq : 1 ≤ q) : ∃ p₁, p.sell s pr q = .ok p₁ := by
  simp only [Portfolio.sell, ge_iff_le]
  split_ifs with hg
  · rcases hl : lookupPos p.positions s with _ | c
    · have := getPos_of_lookup_none hl
      omega
    · simp only [hl]
      split_ifs <;> exact ⟨_, rfl⟩
  · exact ⟨p, rfl⟩

theorem sell_capital {p p₁ : Portfolio} {s : String} {pr : ℚ} {q : ℤ}
    (hok : p.sell s pr q = .ok p₁) :
    p₁.capital = p.capital ∨ p₁.capital = p.capital + pr * (q : ℚ) := by
  simp only [Portfolio.sell, ge_iff_le] at hok
  split_ifs at hok with hg
  · rcases hl : lookupPos p.positions s with _ | c <;> rw [hl] at hok
    · simp at hok
    · simp only at hok
      split_ifs at hok <;>
        · simp only [Except.ok.injEq] at hok
          subst hok
          exact Or.inr rfl
  · simp only [Except.ok.injEq] at hok
    subst hok
    exact Or.inl rfl

theorem sell_posWF {p p₁ : Portfolio} {s : String} {pr : ℚ} {q : ℤ}
    (hok : p.sell s pr q = .ok p₁) (h : posWF p.positions) :
    posWF p₁.positions := by
  simp only [Portfolio.sell, ge_iff_le] at hok
  split_ifs at hok with hg
  · rcases hl : lookupPos p.positions s with _ | c <;> rw [hl] at hok
    · simp at hok
    · have hc : getPos p.positions s = c := getPos_of_lookup hl
      simp only at hok
      split_ifs at hok with hz
      · simp only [Except.ok.injEq] at hok
        subst hok
        intro kv hkv
        exact h _ (mem_delPos ((delPos_setPos_some _ hl) ▸ hkv))
      · simp only [Except.ok.injEq] at hok
        subst hok
        intro kv hkv
        rcases mem_setPos hkv with h1 | h1
        · exact h _ h1
        · subst h1
          rw [getPos_setPos_self] at hz
          simp only
          omega
  · simp only [Except.ok.injEq] at hok
    subst hok
    exact h

theorem applyOp_ok {p : Portfolio} {op : Op} (hv : validOp op) :
    ∃ p₁, applyOp p op = .ok p₁ := by
  cases op with
  | buy s pr q => exact ⟨_, rfl⟩
  | sell s pr q => exact sell_ok pr hv.2

theorem applyOp_capital_nonneg {p p₁ : Portfolio} {op : Op} (hv : validOp op)
    (hok : applyOp p op = .ok p₁) (h : 0 ≤ p.capital) : 0 ≤ p₁.capital := by
  cases op with
  | buy s pr q =>
    simp only [applyOp, Except.ok.injEq] at hok
    subst hok
    exact buy_capital_nonneg s pr q h
  | sell s pr q =>
    rcases sell_capital hok with h1 | h1 <;> rw [h1]
    · exact h
    · have : (0 : ℚ) ≤ pr * (q : ℚ) :=
        mul_nonneg hv.1 (by exact_mod_cast le_trans zero_le_one hv.2)
      linarith

theorem applyOp_posWF {p p₁ : Portfolio} {op : Op} (hv : validOp op)
    (hok : applyOp p op = .ok p₁) (h : posWF p.positions) :
    posWF p₁.positions := by
  cases op with
  | buy s pr q =>
    simp only [applyOp, Except.ok.injEq] at hok
    subst hok
    exact buy_posWF s pr hv.2 h
  | sell s pr q => exact sell_posWF hok h

/-- Every prefix of a valid call sequence runs without raising and preserves
any invariant preserved by single accepted calls. -/
theorem applyOps_take_inv (I : Portfolio → Prop)
    (hstep : ∀ p op p₁, validOp op → applyOp p op = .ok p₁ → I p → I p₁) :
    ∀ (ops : List Op) (p : Portfolio), I p → (∀ op ∈ ops, validOp op) →
      ∀ n, ∃ p', applyOps p (ops.take n) = .ok p' ∧ I p' := by
  intro ops
  induction ops with
  | nil =>
    intro p hI _ n
    exact ⟨p, by simp [applyOps], hI⟩
  | cons op rest ih =>
    intro p hI hv n
    cases n with
    | zero => exact ⟨p, by simp [applyOps], hI⟩
    | succ n =>
      obtain ⟨p₁, hok⟩ := applyOp_ok (p := p) (hv op (List.mem_cons_self _ _))
      have hI₁ := hstep p op p₁ (hv op (List.mem_cons_self _ _)) hok hI
      obtain ⟨p', hrun, hI'⟩ :=
        ih p₁ hI₁ (fun o ho => hv o (List.mem_cons_of_mem _ ho)) n
      refine ⟨p', ?_, hI'⟩
      rw [List.take_succ_cons]
      simp only [applyOps, hok]
      exact hrun

/-- Explicit form of an accepted `sell` on a present symbol. -/
theorem sell_accepted (cap : ℚ) (m : List (String × ℤ)) (h : List String)
    (s : String) (pr : ℚ) (q c : ℤ) (hl : lookupPos m s = some c)
    (hq : q ≤ c) :
    Portfolio.sell ⟨cap, m, h⟩ s pr q = .ok (
      if c - q = 0 then
        ⟨cap + pr * (q : ℚ), delPos (setPos m s (c - q)) s,
          h ++ [sellEntry q s pr]⟩
      else
        ⟨cap + pr * (q : ℚ), setPos m s (c - q), h ++ [sellEntry q s pr]⟩) := by
  simp only [Portfolio.sell, ge_iff_le, getPos_of_lookup hl, hl,
    getPos_setPos_self]
  rw [if_pos hq]
  split_ifs <;> rfl

/-! ## Claim theorems -/

/-- C1: for every starting capital ≥ 0 and every finite sequence of `buy` /
`sell` calls meeting the stated preconditions (price ≥ 0, quantity ≥ 1), the
cash balance `capital` is ≥ 0 after every call (every prefix of the run ends
in a non-raising state with non-negative cash); in particular a buy whose
cost `price * quantity` exceeds the current cash leaves the portfolio — and
hence the cash balance — unchanged. -/
theorem C1_cash_nonneg (c : ℚ) (hc : 0 ≤ c) (ops : List Op)
    (hv : ∀ op ∈ ops, validOp op) :
    (∀ n, ∃ p', applyOps (portfolio c) (ops.take n) = .ok p' ∧ 0 ≤ p'.capital)
    ∧ ∀ (p : Portfolio) (s : String) (pr : ℚ) (q : ℤ),
        p.capital < pr * (q : ℚ) → (p.buy s pr q).capital = p.capital := by
  constructor
  · exact applyOps_take_inv (fun p => 0 ≤ p.capital)
      (fun p op p₁ h hok hcap => applyOp_capital_nonneg h hok hcap)
      ops (portfolio c) hc hv
  · intro p s pr q h
    rw [buy_rejected h]

/-- Witness for C1 at capital 1000 and the two-call sequence
`buy("X",100,3); sell("X",110,3)`. -/
theorem C1_cash_nonneg_witness :
    ∃ p', applyOps (portfolio 1000)
        ([Op.buy "X" 100 3, Op.sell "X" 110 3].take 2) = .ok p'
      ∧ 0 ≤ p'.capital :=
  (C1_cash_nonneg 1000 (by norm_num) [Op.buy "X" 100 3, Op.sell "X" 110 3]
    (by
      intro op hop
      rcases List.mem_cons.mp hop with rfl | hop
      · exact ⟨by norm_num, by norm_num⟩
      rcases List.mem_cons.mp hop with rfl | hop
      · exact ⟨by norm_num, by norm_num⟩
      · exact absurd hop (List.not_mem_nil op))).1 2

/-- C2: under the stated preconditions (price ≥ 0, quantity ≥ 1), after every
call of a valid call sequence every symbol's position count is ≥ 0, and a
symbol key is present in the positions mapping exactly when its count is
nonzero (never present with value 0; removed when the count reaches 0). -/
theorem C2_positions_wf (c : ℚ) (ops : List Op)
    (hv : ∀ op ∈ ops, validOp op) :
    ∀ n, ∃ p', applyOps (portfolio c) (ops.take n) = .ok p' ∧
      (∀ s, 0 ≤ getPos p'.positions s) ∧
      (∀ s, (lookupPos p'.positions s).isSome ↔ getPos p'.positions s ≠ 0) := by
  intro n
  obtain ⟨p', hrun, hwf⟩ := applyOps_take_inv (fun p => posWF p.positions)
    (fun p op p₁ h hok hp => applyOp_posWF h hok hp) ops (portfolio c)
    (by intro kv hkv; simp [portfolio] at hkv) hv n
  refine ⟨p', hrun, fun s => getPos_nonneg hwf s, fun s => ?_⟩
  constructor
  · intro hs
    rcases hl : lookupPos p'.positions s with _ | v
    · rw [hl] at hs
      simp at hs
    · have h1 := hwf _ (lookupPos_mem hl)
      rw [getPos_of_lookup hl]
      simp only at h1
      omega
  · intro hne
    rcases hl : lookupPos p'.positions s with _ | v
    · exact absurd (getPos_of_lookup_none hl) hne
    · simp [hl]

/-- Witness for C2 at capital 1000 and the two-call sequence
`buy("X",100,3); sell("X",110,3)`. -/
theorem C2_positions_wf_witness :
    ∃ p', applyOps (portfolio 1000)
        ([Op.buy "X" 100 3, Op.sell "X" 110 3].take 2) = .ok p'
      ∧ (∀ s, 0 ≤ getPos p'.positions s)
      ∧ (∀ s, (lookupPos p'.positions s).isSome ↔ getPos p'.positions s ≠ 0) :=
  C2_positions_wf 1000 [Op.buy "X" 100 3, Op.sell "X" 110 3]
    (by
      intro op hop
      rcases List.mem_cons.mp hop with rfl | hop
      · exact ⟨by norm_num, by norm_num⟩
      rcases List.mem_cons.mp hop with rfl | hop
      · exact ⟨by norm_num, by norm_num⟩
      · exact absurd hop (List.not_mem_nil op)) 2

/-- C4: rejected trades are atomic no-ops.  A `buy` whose cost exceeds the
cash returns the portfolio unchanged (same cash, same positions mapping, same
ledger), and a `sell` of more than the held count returns the portfolio
unchanged; neither rejection raises (`sell` returns `.ok`). -/
theorem C4_rejected_noop (p : Portfolio) (s : String) (pr : ℚ) (q : ℤ) :
    (p.capital < pr * (q : ℚ) → p.buy s pr q = p) ∧
    (getPos p.positions s < q → p.sell s pr q = .ok p) :=
  ⟨fun h => buy_rejected h, fun h => sell_rejected h⟩

/-- Witness for C4: starting capital 1, a buy of 1 share at 5 is rejected
unchanged, and a sell of 1 unheld share is rejected unchanged. -/
theorem C4_rejected_noop_witness :
    (portfolio 1).buy "X" 5 1 = portfolio 1 ∧
    (portfolio 1).sell "X" 5 1 = .ok (portfolio 1) :=
  ⟨(C4_rejected_noop (portfolio 1) "X" 5 1).1 (by norm_num [portfolio]),
   (C4_rejected_noop (portfolio 1) "X" 5 1).2
     (by norm_num [portfolio, getPos, lookupPos])⟩

/-- C5 fails as stated: `sell` with quantity 0 of an absent symbol raises.
The guard `positions.get(symbol, 0) >= quantity` passes (`0 ≥ 0`), and then
`self.positions[symbol] -= quantity` reads the missing key and raises
`KeyError`.  Concretely, on a fresh portfolio with capital 100,
`sell("Y", 5, 0)` raises rather than returning. -/
theorem C5_counterexample :
    (portfolio 100).sell "Y" 5 0 = .error "KeyError: Y" ∧
    ¬ ∃ p₁, (portfolio 100).sell "Y" 5 0 = .ok p₁ := by
  have h : (portfolio 100).sell "Y" 5 0 = .error "KeyError: Y" := by
    with_unfolding_all rfl
  refine ⟨h, ?_⟩
  rintro ⟨p₁, h₁⟩
  rw [h] at h₁
  exact Except.noConfusion h₁

/-- C5 amended: for every portfolio state and every price ≥ 0, `sell` never
raises for any quantity ≥ 1 (it returns `.ok`), and `buy` never raises for
any quantity ≥ 0; the no-throw guarantee fails only for a `sell` with
quantity 0 of an absent symbol, which raises `KeyError`. -/
theorem C5_no_throw (p : Portfolio) (s : String) (pr : ℚ) (q q₀ : ℤ)
    (hpr : 0 ≤ pr) (hq : 1 ≤ q) (hq₀ : 0 ≤ q₀) :
    (∃ p₁, p.sell s pr q = .ok p₁) ∧
    applyOp p (Op.buy s pr q₀) = .ok (p.buy s pr q₀) :=
  ⟨sell_ok pr hq, rfl⟩

/-- Witness for C5 amended: on an empty portfolio, a sell of 1 unheld share
returns `.ok`, and a buy of quantity 0 returns `.ok`. -/
theorem C5_no_throw_witness :
    (∃ p₁, (portfolio 0).sell "Y" 1 1 = .ok p₁) ∧
    applyOp (portfolio 0) (Op.buy "Y" 1 0) = .ok ((portfolio 0).buy "Y" 1 0) :=
  C5_no_throw (portfolio 0) "Y" 1 1 0 (by norm_num) (by norm_num) (by norm_num)

/-- C7 fails as stated: from the state with cash 0 and 5 held shares of "X"
(reachable from capital 500 by `buy("X",100,5)`), the pair
`buy("X",100,1); sell("X",100,1)` does not restore the state: the buy is
rejected for insufficient cash, the sell then fires, and cash ends at 100 ≠ 0
with the position at 4 ≠ 5. -/
theorem C7_counterexample :
    applyOps (portfolio 500) [Op.buy "X" 100 5] =
      .ok ⟨0, [("X", 5)], [buyEntry 5 "X" 100]⟩ ∧
    ((⟨0, [("X", 5)], [buyEntry 5 "X" 100]⟩ : Portfolio).buy "X" 100 1).sell
        "X" 100 1 =
      .ok ⟨100, [("X", 4)], [buyEntry 5 "X" 100, sellEntry 1 "X" 100]⟩ ∧
    (100 : ℚ) ≠ 0 ∧
    ([("X", (4 : ℤ))] : List (String × ℤ)) ≠ [("X", 5)] := by
  refine ⟨?_, ?_, by norm_num, by simp⟩
  · with_unfolding_all rfl
  · with_unfolding_all rfl

/-- C7 amended: the round trip `buy(s,pr,q); sell(s,pr,q)` (price ≥ 0,
quantity ≥ 1) leaves cash and the positions mapping unchanged provided the
buy is accepted (cost ≤ cash) and any entry already stored for the symbol
has a positive count (as in every state reachable by valid calls). -/
theorem C7_round_trip (p : Portfolio) (s : String) (pr : ℚ) (q : ℤ)
    (hpr : 0 ≤ pr) (hq : 1 ≤ q) (hcash : pr * (q : ℚ) ≤ p.capital)
    (hpos : ∀ kv ∈ p.positions, kv.1 = s → 1 ≤ kv.2) :
    ∃ p', (p.buy s pr q).sell s pr q = .ok p' ∧
      p'.capital = p.capital ∧ p'.positions = p.positions := by
  rcases hl : lookupPos p.positions s with _ | v
  · have hg : getPos p.positions s = 0 := getPos_of_lookup_none hl
    rw [buy_accepted hcash, hg, zero_add]
    rw [sell_accepted _ _ _ _ _ _ _ (lookupPos_setPos_self _ _ _) (le_refl q)]
    rw [sub_self, if_pos rfl, setPos_setPos, delPos_setPos_none _ hl]
    exact ⟨_, rfl, by ring, rfl⟩
  · have hv1 : 1 ≤ v := hpos (s, v) (lookupPos_mem hl) rfl
    have hg : getPos p.positions s = v := getPos_of_lookup hl
    rw [buy_accepted hcash, hg]
    rw [sell_accepted _ _ _ _ _ _ _ (lookupPos_setPos_self _ _ _)
      (by omega : q ≤ v + q)]
    have hvq : v + q - q = v := by ring
    rw [hvq, if_neg (by omega), setPos_setPos, setPos_lookup_self hl]
    exact ⟨_, rfl, by ring, rfl⟩

/-- Witness for C7 amended: capital 1000, `buy("X",100,3); sell("X",100,3)`
restores cash 1000 and the empty positions mapping. -/
theorem C7_round_trip_witness :
    ∃ p', ((portfolio 1000).buy "X" 100 3).sell "X" 100 3 = .ok p' ∧
      p'.capital = (portfolio 1000).capital ∧
      p'.positions = (portfolio 1000).positions :=
  C7_round_trip (portfolio 1000) "X" 100 3 (by norm_num) (by norm_num)
    (by norm_num [portfolio]) (by simp [portfolio])

/-- C10: on a portfolio with cash ≥ 0 whose positions mapping lacks `s`, the
out-of-precondition call `buy(s, pr, 0)` with `0 ≤ pr ≤ cash` is accepted
silently: cash is unchanged, a BUY ledger entry of quantity 0 is appended,
and `s` is inserted into the positions mapping with count 0. -/
theorem C10_zero_quantity_buy (p : Portfolio) (s : String) (pr : ℚ)
    (habs : lookupPos p.positions s = none) (hc : 0 ≤ p.capital)
    (hpr : 0 ≤ pr) (hle : pr ≤ p.capital) :
    (p.buy s pr 0).capital = p.capital ∧
    (p.buy s pr 0).history = p.history ++ [buyEntry 0 s pr] ∧
    lookupPos (p.buy s pr 0).positions s = some 0 := by
  have h0 : pr * (((0 : ℤ)) : ℚ) ≤ p.capital := by
    push_cast
    simpa using hc
  rw [buy_accepted h0]
  have hg : getPos p.positions s = 0 := getPos_of_lookup_none habs
  refine ⟨by push_cast; ring, rfl, ?_⟩
  rw [hg]
  simpa using lookupPos_setPos_self p.positions s 0

/-- Witness for C10: buying 0 shares of "X" at price 3 on a fresh portfolio
with capital 5 leaves cash at 5, logs `BOUGHT 0 X @ 3.00`, and stores the
key "X" with count 0. -/
theorem C10_zero_quantity_buy_witness :
    ((portfolio 5).buy "X" 3 0).capital = (portfolio 5).capital ∧
    ((portfolio 5).buy "X" 3 0).history =
      (portfolio 5).history ++ [buyEntry 0 "X" 3] ∧
    lookupPos ((portfolio 5).buy "X" 3 0).positions "X" = some 0 :=
  C10_zero_quantity_buy (portfolio 5) "X" 3 rfl (by norm_num [portfolio])
    (by norm_num) (by norm_num [portfolio])

theorem optGt_self (o : Option ℚ) : optGt o o = false := by
  cases o with
  | none => rfl
  | some a => simp [optGt]

/-- C3: the moving-average clause of the rotation condition is dead —
`rsi > rsi` is always false, so the condition is equivalent to
`zscore > 1` for every assignment of the four indicator values; both `if`
legs evaluate the identical condition; and whenever it holds, the loop body
issues `buy NVDA, sell AMD, buy AMD, sell NVDA`, each of 1 share at the
current close price. -/
theorem C3_dead_ma_clause (r s50 s200 z : Option ℚ) (p : Portfolio) (b : Bar) :
    condLeg1 r s50 s200 z = optGt1 z ∧
    condLeg1 r s50 s200 z = condLeg2 r s50 s200 z ∧
    (condLeg1 b.rsi b.sma50 b.sma200 b.zscore = true →
      stepBar p b = applyOps p [Op.buy "NVDA" b.price 1,
        Op.sell "AMD" b.price 1, Op.buy "AMD" b.price 1,
        Op.sell "NVDA" b.price 1]) := by
  refine ⟨by simp [condLeg1, optGt_self], rfl, ?_⟩
  intro hc
  have hc2 : condLeg2 b.rsi b.sma50 b.sma200 b.zscore = true := hc
  simp only [stepBar, applyOps, applyOp, hc, hc2, if_true]
  rcases h1 : (p.buy "NVDA" b.price 1).sell "AMD" b.price 1 with e | p₁ <;>
    simp only [h1]
  rcases h2 : (p₁.buy "AMD" b.price 1).sell "NVDA" b.price 1 with e | p₂ <;>
    simp only [h2]

/-- Witness for C3 at indicator values rsi = sma50 = sma200 = NaN,
z-score = 2, on a fresh portfolio with capital 12000. -/
theorem C3_dead_ma_clause_witness :
    condLeg1 none none none (some 2) = optGt1 (some 2) ∧
    stepBar (portfolio 12000) (Bar.mk 100 0 none none none (some 2)) =
      applyOps (portfolio 12000) [Op.buy "NVDA" 100 1, Op.sell "AMD" 100 1,
        Op.buy "AMD" 100 1, Op.sell "NVDA" 100 1] :=
  ⟨(C3_dead_ma_clause none none none (some 2) (portfolio 12000)
      (Bar.mk 100 0 none none none (some 2))).1,
   (C3_dead_ma_clause none none none (some 2) (portfolio 12000)
      (Bar.mk 100 0 none none none (some 2))).2.2 (by with_unfolding_all rfl)⟩

/-- C6 fails as stated: an undefined (NaN) indicator at a bar does NOT always
suppress the trade.  With rsi, sma50 and sma200 all NaN but z-score = 2 > 1,
the z-score clause fires and the loop body trades: from a fresh portfolio
with capital 12000 it executes buy NVDA, buy AMD and sell NVDA (the sell of
AMD is rejected for lack of holdings), leaving 3 ledger entries, not 0. -/
theorem C6_counterexample :
    (Bar.mk 100 0 none none none (some 2)).rsi = none ∧
    stepBar (portfolio 12000) (Bar.mk 100 0 none none none (some 2)) =
      .ok ⟨11900, [("AMD", 1)],
        [buyEntry 1 "NVDA" 100, buyEntry 1 "AMD" 100,
         sellEntry 1 "NVDA" 100]⟩ ∧
    ([buyEntry 1 "NVDA" 100, buyEntry 1 "AMD" 100,
      sellEntry 1 "NVDA" 100] : List String) ≠ [] := by
  refine ⟨rfl, ?_, by simp⟩
  with_unfolding_all rfl

/-- C6 amended: if the z-score at bar index `i` is undefined (NaN), then no
trade is issued at `i` regardless of the other indicator values — the whole
decision condition is false because `rsi > rsi` is identically false and a
comparison against NaN is false — and the undefined value is never
propagated as an error (the result is `.ok` with the portfolio unchanged). -/
theorem C6_nan_zscore_no_trade (p : Portfolio) (b : Bar)
    (hz : b.zscore = none) : stepBar p b = .ok p := by
  have hc : condLeg1 b.rsi b.sma50 b.sma200 b.zscore = false := by
    simp [condLeg1, optGt_self, hz, optGt1]
  have hc2 : condLeg2 b.rsi b.sma50 b.sma200 b.zscore = false := hc
  simp [stepBar, hc, hc2]

/-- Witness for C6 amended: NaN z-score with well-defined rsi/sma values
(including sma50 > sma200) issues no trade and no error. -/
theorem C6_nan_zscore_no_trade_witness :
    stepBar (portfolio 7) (Bar.mk 100 0 (some 50) (some 10) (some 5) none) =
      .ok (portfolio 7) :=
  C6_nan_zscore_no_trade (portfolio 7)
    (Bar.mk 100 0 (some 50) (some 10) (some 5) none) rfl

/-- C8 fails as stated on the ledger-entry text: after `buy("X", 100, 3)`
from capital 1000 the single ledger entry reads `BOUGHT 3 X @ 100.00`, which
is not the claimed string `BUY 3 X@100.00`. -/
theorem C8_counterexample :
    ((portfolio 1000).buy "X" 100 3).history = ["BOUGHT 3 X @ 100.00"] ∧
    "BOUGHT 3 X @ 100.00" ≠ "BUY 3 X@100.00" := by
  constructor
  · with_unfolding_all rfl
  · with_unfolding_all decide

/-- C8 amended: starting from capital 1000, `buy("X",100,3)` gives cash 700,
position X = 3 and the single ledger entry `BOUGHT 3 X @ 100.00`; the
subsequent `sell("X",110,3)` gives cash 1030, removes the "X" key entirely,
and leaves exactly 2 ledger entries. -/
theorem C8_scenario :
    ((portfolio 1000).buy "X" 100 3).capital = 700 ∧
    getPos ((portfolio 1000).buy "X" 100 3).positions "X" = 3 ∧
    ((portfolio 1000).buy "X" 100 3).history = ["BOUGHT 3 X @ 100.00"] ∧
    ((portfolio 1000).buy "X" 100 3).sell "X" 110 3 =
      .ok ⟨1030, [], ["BOUGHT 3 X @ 100.00", "SOLD   3 X @ 110.00"]⟩ ∧
    lookupPos ([] : List (String × ℤ)) "X" = none ∧
    (["BOUGHT 3 X @ 100.00", "SOLD   3 X @ 110.00"] : List String).length =
      2 := by
  refine ⟨?_, ?_, ?_, ?_, rfl, rfl⟩ <;> with_unfolding_all rfl

/-- A string of the shape appended by an accepted trade:
`BOUGHT {q} {s} @ {pr:.2f}` or `SOLD   {q} {s} @ {pr:.2f}`. -/
def entryWF (e : String) : Prop :=
  ∃ (q : ℤ) (s : String) (pr : ℚ), e = buyEntry q s pr ∨ e = sellEntry q s pr

theorem applyOp_entryWF {p p₁ : Portfolio} {op : Op}
    (hok : applyOp p op = .ok p₁) (h : ∀ e ∈ p.history, entryWF e) :
    ∀ e ∈ p₁.history, entryWF e := by
  cases op with
  | buy s pr q =>
    simp only [applyOp, Except.ok.injEq] at hok
    subst hok
    simp only [Portfolio.buy, ge_iff_le]
    split_ifs with hc
    · intro e he
      rcases List.mem_append.mp he with h1 | h1
      · exact h e h1
      · rw [List.mem_singleton] at h1
        exact ⟨q, s, pr, Or.inl h1⟩
    · exact h
  | sell s pr q =>
    simp only [applyOp, Portfolio.sell, ge_iff_le] at hok
    split_ifs at hok with hg
    · rcases hl : lookupPos p.positions s with _ | c <;> rw [hl] at hok
      · simp at hok
      · simp only at hok
        split_ifs at hok <;>
          · simp only [Except.ok.injEq] at hok
            subst hok
            intro e he
            rcases List.mem_append.mp he with h1 | h1
            · exact h e h1
            · rw [List.mem_singleton] at h1
              exact ⟨q, s, pr, Or.inr h1⟩
    · simp only [Except.ok.injEq] at hok
      subst hok
      exact h

theorem applyOps_entryWF : ∀ (ops : List Op) (p p' : Portfolio),
    applyOps p ops = .ok p' → (∀ e ∈ p.history, entryWF e) →
    ∀ e ∈ p'.history, entryWF e := by
  intro ops
  induction ops with
  | nil =>
    intro p p' hrun h
    simp only [applyOps, Except.ok.injEq] at hrun
    subst hrun
    exact h
  | cons op rest ih =>
    intro p p' hrun h
    simp only [applyOps] at hrun
    rcases hok : applyOp p op with e | p₁ <;> rw [hok] at hrun
    · exact absurd hrun (by simp)
    · exact ih p₁ p' hrun (applyOp_entryWF hok h)

/-- C9 amended: every ledger entry of a run (any call sequence that completes
without raising, from any starting capital) has the form
`BOUGHT {q} {s} @ {pr}` or `SOLD   {q} {s} @ {pr}` — the action word is
BOUGHT/SOLD (not BUY/SELL), the price is formatted to 2 decimal places and
the quantity is rendered as a plain integer — and the final report prints
the entries one per line in ledger (execution) order. -/
theorem C9_ledger_format (c : ℚ) (ops : List Op) (p' : Portfolio)
    (hrun : applyOps (portfolio c) ops = .ok p') :
    (∀ e ∈ p'.history, entryWF e) ∧
    (p'.history ≠ [] → tradeHistoryLines p' = p'.history) := by
  refine ⟨applyOps_entryWF ops (portfolio c) p' hrun ?_, fun hne => ?_⟩
  · intro e he
    simp [portfolio] at he
  · simp [tradeHistoryLines, hne]

/-- Witness for C9 amended: the single-entry ledger after `buy("X",100,3)`
from capital 1000 is well formed and printed as-is. -/
theorem C9_ledger_format_witness :
    entryWF "BOUGHT 3 X @ 100.00" ∧
    tradeHistoryLines ⟨700, [("X", 3)], ["BOUGHT 3 X @ 100.00"]⟩ =
      ["BOUGHT 3 X @ 100.00"] :=
  ⟨(C9_ledger_format 1000 [Op.buy "X" 100 3]
      ⟨700, [("X", 3)], ["BOUGHT 3 X @ 100.00"]⟩
      (by with_unfolding_all rfl)).1 _ (List.mem_singleton.mpr rfl),
   (C9_ledger_format 1000 [Op.buy "X" 100 3]
      ⟨700, [("X", 3)], ["BOUGHT 3 X @ 100.00"]⟩
      (by with_unfolding_all rfl)).2 (by simp)⟩

/-- C9 fails as stated: the entry recorded for `buy("X",100,3)` is
`BOUGHT 3 X @ 100.00`; its action token is not `BUY` (nor `SELL`), so the
entry does not have the claimed `BUY …` / `SELL …` form (and the quantity is
not rendered to 2 decimal places). -/
theorem C9_counterexample :
    ((portfolio 1000).buy "X" 100 3).history = ["BOUGHT 3 X @ 100.00"] ∧
    ¬ ∃ rest : String, "BOUGHT 3 X @ 100.00" = "BUY " ++ rest ∨
      "BOUGHT 3 X @ 100.00" = "SELL " ++ rest := by
  refine ⟨by with_unfolding_all rfl, ?_⟩
  rintro ⟨rest, h | h⟩
  · have h2 := congrArg String.data h
    rw [String.data_append] at h2
    rw [show "BUY ".data = ['B', 'U', 'Y', ' '] from rfl] at h2
    rw [show "BOUGHT 3 X @ 100.00".data =
      ['B', 'O', 'U', 'G', 'H', 'T', ' ', '3', ' ', 'X', ' ', '@', ' ',
        '1', '0', '0', '.', '0', '0'] from rfl] at h2
    simp at h2
  · have h2 := congrArg String.data h
    rw [String.data_append] at h2
    rw [show "SELL ".data = ['S', 'E', 'L', 'L', ' '] from rfl] at h2
    rw [show "BOUGHT 3 X @ 100.00".data =
      ['B', 'O', 'U', 'G', 'H', 'T', ' ', '3', ' ', 'X', ' ', '@', ' ',
        '1', '0', '0', '.', '0', '0'] from rfl] at h2
    simp at h2

